import Mathlib

/-!
# Verification of the Programmable-Workout sequence core

Shallow embedding of the sequence model, flattener, tree editor, playback
state machine and persistence migration of `src/app/(tabs)/index.tsx`,
together with proofs of the specified properties.

Conventions of the embedding:
* JavaScript numbers appearing in the core are non-negative integers
  (durations and repetition counts come from digit-only text inputs), so
  they are modelled as `Nat`.
* `Date.now().toString()` id generation is modelled by passing the fresh
  id as an explicit parameter to the operation that creates a unit.
* React `useState` setters become explicit state passing on `AppState`;
  the `useEffect` that recomputes `flattenedSequence` after every `items`
  change is modelled by deriving the flattened list from `items`
  (`flattenedOf`), which is exactly the synchronously-recomputed value.
* Fire-and-forget side effects (the `playBeep` audio cue) are modelled as
  boolean flags returned next to the new state.
-/

namespace Workout

/-- `interface SequenceStep { type: "step"; time: number; label?: string; id: string }`.
The constant `type` tag becomes the `LoopItem.step` constructor tag. -/
structure SequenceStep where
  time : Nat
  label : Option String
  id : String
deriving Repr, DecidableEq

/-- `type LoopItem = SequenceStep | SequenceLoop`, with
`interface SequenceLoop { type: "loop"; id: string; repetitions: number; children: LoopItem[]; label?: string }`.
The discriminated union becomes an inductive with two constructors. -/
inductive LoopItem where
  | step (s : SequenceStep)
  | loop (id : String) (repetitions : Nat) (children : List LoopItem) (label : Option String)
deriving Repr

/-- `item.id` for either variant. -/
def itemId : LoopItem → String
  | .step st => st.id
  | .loop lid _ _ _ => lid

/-- `for (let i = 0; i < reps; i++) { ...emit xs... }`: the list `xs` emitted
`n` consecutive times.  `processItems(items, reps)` pushes the one-pass
flattening of `items` once per loop iteration; since the pass is pure, the
repetition is the concatenation of `n` copies of the pass result. -/
def repeatList {α : Type} : Nat → List α → List α
  | 0, _ => []
  | n + 1, xs => xs ++ repeatList n xs

mutual
/-- One `items.forEach` iteration of `processItems` inside
`flattenSequence`: a step pushes itself, a loop recursively runs
`processItems(item.children, item.repetitions)`, which emits the child
pass `repetitions` consecutive times. -/
def flattenItem : LoopItem → List SequenceStep
  | .step st => [st]
  | .loop _ r ch _ => repeatList r (flattenList ch)

/-- One pass of `processItems` over `items` (the `forEach` over the whole
list). -/
def flattenList : List LoopItem → List SequenceStep
  | [] => []
  | item :: rest => flattenItem item ++ flattenList rest
end

/-- `processItems(items, repetitions)` of the source `flattenSequence`:
the one-pass result emitted `repetitions` consecutive times. -/
def processItems (items : List LoopItem) (reps : Nat) : List SequenceStep :=
  repeatList reps (flattenList items)

/-- `flattenSequence(items)`: `processItems(items)` with the default
`repetitions = 1`. -/
def flattenSequence (items : List LoopItem) : List SequenceStep :=
  processItems items 1

mutual
/-- The per-item test of `parentExists`: `item.id === parentId`, or the
item is a loop whose children contain the id at some depth. -/
def itemHasId : LoopItem → String → Bool
  | .step st, pid => st.id == pid
  | .loop lid _ ch _, pid => lid == pid || parentExists ch pid

/-- `parentExists(items, parentId)`: depth-first search returning `true`
iff some unit (step or loop!) at any depth has `item.id === parentId`. -/
def parentExists : List LoopItem → String → Bool
  | [], _ => false
  | item :: rest, pid => itemHasId item pid || parentExists rest pid
end

mutual
/-- Per-item test for `containsLoopId`. -/
def itemHasLoopId : LoopItem → String → Bool
  | .step _, _ => false
  | .loop lid _ ch _, pid => lid == pid || containsLoopId ch pid

/-- `true` iff some *loop* at any depth has the given id (the condition
`i.id === parentId && i.type === "loop"` of `updateItems` can fire). -/
def containsLoopId : List LoopItem → String → Bool
  | [], _ => false
  | item :: rest, pid => itemHasLoopId item pid || containsLoopId rest pid
end

mutual
/-- The ids contributed by one unit: its own id, then (for a loop) the
ids of its subtree. -/
def itemIds : LoopItem → List String
  | .step st => [st.id]
  | .loop lid _ ch _ => lid :: allIds ch

/-- All ids occurring in the tree, in depth-first order. -/
def allIds : List LoopItem → List String
  | [] => []
  | item :: rest => itemIds item ++ allIds rest
end

mutual
/-- Per-item test for `hasLoopContaining`: the item is a loop with id
`rid` whose subtree contains `sel`, or a loop containing such a loop. -/
def itemLoopContaining : LoopItem → String → String → Bool
  | .step _, _, _ => false
  | .loop lid _ ch _, rid, sel =>
      (lid == rid && parentExists ch sel) || hasLoopContaining ch rid sel

/-- `true` iff some loop at any depth has id `rid` and `sel` occurs inside
its children subtree — i.e. the unit addressed by `sel` is a descendant of
the unit addressed by `rid`. -/
def hasLoopContaining : List LoopItem → String → String → Bool
  | [], _, _ => false
  | item :: rest, rid, sel =>
      itemLoopContaining item rid sel || hasLoopContaining rest rid sel
end

mutual
/-- The function mapped by `updateItems` over each unit: a loop whose id
equals `parentId` gets `children: [...i.children, item]`, any other loop
recurses into its children, steps are returned unchanged. -/
def updateItem (pid : String) (newItem : LoopItem) : LoopItem → LoopItem
  | .step st => .step st
  | .loop lid r ch lbl =>
      if lid == pid then .loop lid r (ch ++ [newItem]) lbl
      else .loop lid r (updateItems pid newItem ch) lbl

/-- `updateItems` inside `addStepToParent`: `items.map(i => ...)`. -/
def updateItems (pid : String) (newItem : LoopItem) : List LoopItem → List LoopItem
  | [] => []
  | item :: rest => updateItem pid newItem item :: updateItems pid newItem rest
end

/-- `addStepToParent(parentId, item)`: `null` parent appends to the top
level, otherwise `updateItems` rebuilds the tree. -/
def addStepToParent (parentId : Option String) (item : LoopItem) (items : List LoopItem) :
    List LoopItem :=
  match parentId with
  | none => items ++ [item]
  | some pid => updateItems pid item items

/-- The insertion branch shared by `addStep` and `addLoop`:
`if (currentParentId && !parentExists(items, currentParentId)) { top-level append }
else { addStepToParent(currentParentId, unit) }`. -/
def insertUnit (pid : Option String) (u : LoopItem) (items : List LoopItem) : List LoopItem :=
  match pid with
  | some p => if parentExists items p then addStepToParent (some p) u items else items ++ [u]
  | none => addStepToParent none u items

mutual
/-- The function mapped over the kept units by `removeFromItems`: a loop
gets `{...item, children: removeFromItems(item.children)}`, a step passes
through unchanged. -/
def removeInChildren (id : String) : LoopItem → LoopItem
  | .step st => .step st
  | .loop lid r ch lbl => .loop lid r (removeFromItems id ch) lbl

/-- `removeFromItems` inside `removeItem`:
`items.filter(item => item.id !== id).map(item => ...)`, written with the
filter and the map fused into one recursion (semantically identical: kept
elements are mapped, dropped ones are not). -/
def removeFromItems (id : String) : List LoopItem → List LoopItem
  | [] => []
  | item :: rest =>
      if itemId item == id then removeFromItems id rest
      else removeInChildren id item :: removeFromItems id rest
end

/-- Decimal value of a digit sequence (the characters of a sanitized
numeric `TextInput`). -/
def digitsToNat (ds : List Char) : Nat :=
  ds.foldl (fun n c => n * 10 + (c.toNat - '0'.toNat)) 0

/-- `parseInt(text) || 0` applied to a digit-only input string (the
`TextInput`s sanitize their text with `replace(/[^0-9]/g, "")`):
`parseInt("")` is `NaN`, which `|| 0` turns into `0`; otherwise the
decimal value of the digits. -/
def parseIntOr0 (s : String) : Nat :=
  match s.data with
  | [] => 0
  | ds => digitsToNat ds

/-- `parseInt(loopRepetitions) || 1` at the `addLoop` call site: `NaN`
(empty input) *and* `0` are falsy in JavaScript, so both coerce to `1`. -/
def parseIntOr1 (s : String) : Nat :=
  match s.data with
  | [] => 1
  | ds =>
    match digitsToNat ds with
    | 0 => 1
    | n + 1 => n + 1

/-- `text.replace(/[^0-9]/g, "")` of the numeric `TextInput`s (the
`maxLength` cap does not affect any property proved here and is omitted). -/
def sanitizeDigits (t : String) : String :=
  String.mk (t.data.filter Char.isDigit)

/-- The `useState` cells of `HomeScreen` that the core logic reads and
writes.  `flattenedSequence` is not stored: the `useEffect` on `[items]`
keeps it equal to `flattenSequence items`, so it is derived
(`flattenedOf`).  Modal-visibility flags and the save-dialog text fields
are presentation state with no effect on the claims and are omitted. -/
structure AppState where
  minutes : String
  seconds : String
  loopRepetitions : String
  items : List LoopItem
  currentParentId : Option String
  currentStepIndex : Nat
  isTimerPlaying : Bool
  resetKey : Nat
deriving Repr

/-- The `flattenedSequence` state variable: kept equal to
`flattenSequence(items)` by the `useEffect` on `[items]`. -/
def flattenedOf (s : AppState) : List SequenceStep :=
  flattenSequence s.items

/-- Length of the flattened playback list. -/
def flatLen (s : AppState) : Nat :=
  (flattenedOf s).length

/-- `flattenedSequence[currentStepIndex]?.time || 10`: the countdown
duration shown by the widget; out-of-range access yields `undefined` and
a `time` of `0` is falsy, so both fall back to `10`. -/
def activeDuration (s : AppState) : Nat :=
  match (flattenedOf s).get? s.currentStepIndex with
  | some st => if st.time == 0 then 10 else st.time
  | none => 10

/-- `resetTimer`: index to `0`, stop playing, bump the countdown-widget
reset token. -/
def resetTimer (s : AppState) : AppState :=
  { s with currentStepIndex := 0, isTimerPlaying := false, resetKey := s.resetKey + 1 }

/-- `startSequence`: no-op on an empty flattened list, otherwise index to
`0`, start playing and fire `playBeep`.  The second component records
whether the beep was triggered. -/
def startSequence (s : AppState) : AppState × Bool :=
  if (flattenedOf s).length == 0 then (s, false)
  else ({ s with currentStepIndex := 0, isTimerPlaying := true }, true)

/-- `handleComplete`: on a non-final step advance the index, beep, and
return `{shouldRepeat: true}`; on the final step call `resetTimer` and
return `{shouldRepeat: false}`.  Components: (new state, beep fired,
`shouldRepeat`). -/
def handleComplete (s : AppState) : AppState × Bool × Bool :=
  if s.currentStepIndex < (flattenedOf s).length - 1 then
    ({ s with currentStepIndex := s.currentStepIndex + 1 }, true, true)
  else
    (resetTimer s, false, false)

/-- `addStep`: parse the minutes/seconds fields, compute
`totalTime = mins * 60 + secs`; only if positive, create the step (with
the caller-supplied fresh id standing for `Date.now().toString()`),
insert it via the `parentExists` fallback branch, and clear the two text
fields.  Otherwise nothing happens at all. -/
def addStep (newId : String) (s : AppState) : AppState :=
  let mins := parseIntOr0 s.minutes
  let secs := parseIntOr0 s.seconds
  let totalTime := mins * 60 + secs
  if totalTime > 0 then
    let newStep : LoopItem := .step ⟨totalTime, none, newId⟩
    { s with
      items := insertUnit s.currentParentId newStep s.items
      minutes := ""
      seconds := "" }
  else s

/-- `addLoop(parseInt(loopRepetitions) || 1)`: create an empty loop with
the coerced repetition count, insert it via the same `parentExists`
fallback branch, and reset the repetitions field to `"1"` (the modal
visibility flag is presentation state and omitted). -/
def addLoop (newId : String) (s : AppState) : AppState :=
  let reps := parseIntOr1 s.loopRepetitions
  let newLoop : LoopItem := .loop newId reps [] none
  { s with
    items := insertUnit s.currentParentId newLoop s.items
    loopRepetitions := "1" }

/-- `removeItem(id)`: rebuild the tree without the unit, then reset the
"add into" selection when it was the removed id or no longer resolves in
the new tree. -/
def removeItem (id : String) (s : AppState) : AppState :=
  let newItems := removeFromItems id s.items
  { s with
    items := newItems
    currentParentId :=
      match s.currentParentId with
      | some pid => if pid == id || !parentExists newItems pid then none else some pid
      | none => none }

/-- The discrete events that drive the core: text edits, the editor
commands (each carrying the fresh id `Date.now().toString()` would
produce), selecting a loop as the "add into" target, and the playback
buttons / countdown completion. -/
inductive Ev where
  | setMinutesEv (t : String)
  | setSecondsEv (t : String)
  | setLoopRepsEv (t : String)
  | addStepEv (newId : String)
  | addLoopEv (newId : String)
  | removeEv (id : String)
  | selectParentEv (pid : String)
  | startEv
  | pauseEv
  | resetEv
  | completeEv
deriving Repr, DecidableEq

/-- One event of the interactive loop.  The playback buttons carry their
`disabled` guards (`start` requires a non-empty flattened list and not
already playing, `pause` requires playing, `reset` a non-empty list);
`completeEv` can only fire while the countdown is actually running. -/
def stepEv (s : AppState) : Ev → AppState
  | .setMinutesEv t => { s with minutes := sanitizeDigits t }
  | .setSecondsEv t => { s with seconds := sanitizeDigits t }
  | .setLoopRepsEv t => { s with loopRepetitions := sanitizeDigits t }
  | .addStepEv newId => addStep newId s
  | .addLoopEv newId => addLoop newId s
  | .removeEv id => removeItem id s
  | .selectParentEv pid => { s with currentParentId := some pid }
  | .startEv =>
      if (flattenedOf s).length != 0 && !s.isTimerPlaying then (startSequence s).1 else s
  | .pauseEv =>
      if (flattenedOf s).length != 0 && s.isTimerPlaying then
        { s with isTimerPlaying := false }
      else s
  | .resetEv => if (flattenedOf s).length != 0 then resetTimer s else s
  | .completeEv => if s.isTimerPlaying then (handleComplete s).1 else s

/-- The initial `useState` values of `HomeScreen`. -/
def startState : AppState :=
  { minutes := ""
    seconds := ""
    loopRepetitions := "1"
    items := []
    currentParentId := none
    currentStepIndex := 0
    isTimerPlaying := false
    resetKey := 0 }

/-- Run a list of events from a state. -/
def runEvents : List Ev → AppState → AppState
  | [], s => s
  | e :: evs, s => runEvents evs (stepEv s e)

/-- `true` for the remove-unit editor event. -/
def isRemoveEv : Ev → Bool
  | .removeEv _ => true
  | _ => false

/-- A record of a legacy persisted payload: the elements of the old bare
array shape `[{time, id, label?}, ...]` (no `type` tag). -/
structure LegacyStep where
  time : Nat
  id : String
  label : Option String
deriving Repr, DecidableEq

/-- The shapes a successfully `JSON.parse`d `@current_sequence` payload can
take, as far as `loadSequence` can distinguish them:
* `arrayPayload`: the payload is a bare array of legacy records —
  `Array.isArray(parsed.items)` is `false` (an array has no `items`
  field) and `parsed.map` is a function;
* `objectPayload items steps`: the payload is an object; `items` is
  `some l` iff the object has an `items` field that is an array (a
  missing or non-array `items` field behaves identically, hence one
  `none`); `steps` records an optional legacy `steps` field.  `parsed.map`
  is not a function on an object. -/
inductive ParsedPayload where
  | arrayPayload (records : List LegacyStep)
  | objectPayload (items : Option (List LoopItem)) (steps : Option (List LegacyStep))
deriving Repr

/-- The stored string before parsing: either unparseable JSON (in which
case `JSON.parse` throws) or a parsed payload. -/
inductive RawPayload where
  | malformedJSON
  | parsed (p : ParsedPayload)
deriving Repr

/-- `Array.isArray(parsed.items) ? parsed.items : failure`:
probing the `items` field for an array. -/
def getItemsArray : ParsedPayload → Option (List LoopItem)
  | .arrayPayload _ => none
  | .objectPayload items _ => items

/-- `parsed.map(step => ({ type: "step", ...step }))`: succeeds exactly
when the payload is an array, tagging each record as a step.  (The spread
comes after the tag, but legacy records carry no `type` field, so the tag
always survives.)  On an object `.map` is not a function and the resulting
`TypeError` is the `none` case. -/
def tryMapSteps : ParsedPayload → Option (List SequenceStep)
  | .arrayPayload records => some (records.map fun st => ⟨st.time, st.label, st.id⟩)
  | .objectPayload _ _ => none

/-- Outcome of `loadSequence`: either `setItems` was called with the given
tree, or the `catch` block fired `Alert.alert("Erreur", "Impossible de
charger la séquence")` and the in-memory tree was left unchanged. -/
inductive LoadResult where
  | loaded (items : List LoopItem)
  | loadError
deriving Repr

/-- The body of `loadSequence` in the `useFocusEffect`: parse, use
`parsed.items` when it is an array, otherwise migrate via `parsed.map`;
any thrown error (unparseable JSON, or `.map` on a non-array) is caught
and surfaced as the load-failure alert. -/
def loadSequence : RawPayload → LoadResult
  | .malformedJSON => .loadError
  | .parsed p =>
      match getItemsArray p with
      | some its => .loaded its
      | none =>
          match tryMapSteps p with
          | some migrated => .loaded (migrated.map .step)
          | none => .loadError

/-- The spec's playback-index invariant: the current step index is in
`[0, length-1]` whenever the flattened list is non-empty. -/
abbrev IndexInv (s : AppState) : Prop :=
  0 < flatLen s → s.currentStepIndex < flatLen s

/-- Strengthened inductive form: in range, or parked at `0`. -/
abbrev IndexInvAux (s : AppState) : Prop :=
  s.currentStepIndex < flatLen s ∨ s.currentStepIndex = 0

/-- A tree consisting of one step with id `"s"`. -/
def singleStepItems : List LoopItem :=
  [.step ⟨5, none, "s"⟩]

/-- A tree consisting of two steps `"a"` and `"b"`. -/
def twoStepItems : List LoopItem :=
  [.step ⟨5, none, "a"⟩, .step ⟨5, none, "b"⟩]

/-- A paused playback state: two flattened steps, current index `1`,
not playing. -/
def pausedAtOne : AppState :=
  { startState with items := twoStepItems, currentStepIndex := 1 }

/-- A nested demo tree: loop `"L"` containing loop `"M"`. -/
def nestedLoopItems : List LoopItem :=
  [.loop "L" 2 [.loop "M" 1 [] none] none]

/-- Running playback over the one-step demo tree, index `0`. -/
def runningOne : AppState :=
  { startState with items := singleStepItems, isTimerPlaying := true }

/-- Running playback over the two-step demo tree, index `0`. -/
def runningTwo : AppState :=
  { startState with items := twoStepItems, isTimerPlaying := true }

/-- Running playback over the two-step demo tree at the last index. -/
def runningTwoAtOne : AppState :=
  { runningTwo with currentStepIndex := 1 }

/-- Editor state with the nested demo tree and the inner loop `"M"`
selected as the "add into" target. -/
def selStateNested : AppState :=
  { startState with items := nestedLoopItems, currentParentId := some "M" }

/-- Editor state with a loop `"L"` and a sibling step `"a"`, the loop
selected as the "add into" target. -/
def selStateSibling : AppState :=
  { startState with
    items := [.loop "L" 2 [] none, .step ⟨5, none, "a"⟩]
    currentParentId := some "L" }

/- ## Theorems -/

/-- `repeatList n xs` has length `n * xs.length`. -/
theorem repeatList_length {α : Type} (n : Nat) (xs : List α) :
    (repeatList n xs).length = n * xs.length := by
  induction n with
  | zero => simp [repeatList]
  | succ m ih => simp [repeatList, ih, Nat.succ_mul, Nat.add_comm]

/-- `repeatList n xs` is the concatenation of `n` copies of `xs`. -/
theorem repeatList_eq_join_replicate {α : Type} (n : Nat) (xs : List α) :
    repeatList n xs = (List.replicate n xs).flatten := by
  induction n with
  | zero => simp [repeatList]
  | succ m ih => simp [repeatList, List.replicate_succ, ih]

/-- `flattenSequence` is one pass of `processItems` (a single repetition). -/
theorem flattenSequence_eq_flattenList (items : List LoopItem) :
    flattenSequence items = flattenList items := by
  simp [flattenSequence, processItems, repeatList]

/-- `flattenList` distributes over list concatenation. -/
theorem flattenList_append :
    ∀ xs ys : List LoopItem, flattenList (xs ++ ys) = flattenList xs ++ flattenList ys
  | [], _ => by simp [flattenList]
  | item :: rest, ys => by
      simp [flattenList, flattenList_append rest ys]

/-- The length of one flattening pass is the sum over top-level units of
`1` for a step and `repetitions * |flatten children|` for a loop. -/
theorem flattenList_length :
    ∀ items : List LoopItem,
      (flattenList items).length =
        (items.map fun it =>
          match it with
          | .step _ => 1
          | .loop _ r ch _ => r * (flattenList ch).length).sum
  | [] => by simp [flattenList]
  | .step st :: rest => by
      simp [flattenList, flattenItem, flattenList_length rest, Nat.add_comm]
  | .loop lid r ch lbl :: rest => by
      simp [flattenList, flattenItem, flattenList_length rest, repeatList_length]

/-- C5: `flatten` emits one entry per Step; a Loop with repetition count
`R` emits its recursively flattened child sub-sequence `R` consecutive
times (`R = 0` emits nothing, empty loops emit nothing); consequently the
length of the flattening is the recursive sum over units of `1` for a
Step and `R * |flatten children|` for a Loop; and
`flatten [Step 30, Loop 2 [Step 10, Step 5]] = [30, 10, 5, 10, 5]`. -/
theorem flattenSequence_spec :
    (∀ items : List LoopItem,
      (flattenSequence items).length =
        (items.map fun it =>
          match it with
          | .step _ => 1
          | .loop _ r ch _ => r * (flattenSequence ch).length).sum)
    ∧ (∀ st : SequenceStep, flattenItem (.step st) = [st])
    ∧ (∀ (lid : String) (r : Nat) (ch : List LoopItem) (lbl : Option String),
        flattenItem (.loop lid r ch lbl) = (List.replicate r (flattenSequence ch)).flatten)
    ∧ (∀ (lid : String) (ch : List LoopItem) (lbl : Option String),
        flattenItem (.loop lid 0 ch lbl) = [])
    ∧ (flattenSequence
        [.step ⟨30, none, "s1"⟩,
         .loop "l1" 2 [.step ⟨10, none, "s2"⟩, .step ⟨5, none, "s3"⟩] none]).map
          (fun st => st.time) = [30, 10, 5, 10, 5] := by
  refine ⟨?_, ?_, ?_, ?_, ?_⟩
  · intro items
    simp only [flattenSequence_eq_flattenList]
    exact flattenList_length items
  · intro st
    rfl
  · intro lid r ch lbl
    simp [flattenItem, flattenSequence_eq_flattenList, repeatList_eq_join_replicate]
  · intro lid ch lbl
    rfl
  · rfl

/-- If an id occurs nowhere in the tree, `removeFromItems` rebuilds the
tree unchanged. -/
theorem removeFromItems_of_not_exists (id : String) :
    ∀ items : List LoopItem, parentExists items id = false → removeFromItems id items = items
  | [], _ => rfl
  | .step st :: rest, h => by
      simp only [parentExists, itemHasId, Bool.or_eq_false_iff] at h
      simp [removeFromItems, removeInChildren, itemId, h.1,
        removeFromItems_of_not_exists id rest h.2]
  | .loop lid r ch lbl :: rest, h => by
      simp only [parentExists, itemHasId, Bool.or_eq_false_iff] at h
      simp [removeFromItems, removeInChildren, itemId, h.1.1,
        removeFromItems_of_not_exists id ch h.1.2,
        removeFromItems_of_not_exists id rest h.2]

/-- After `removeFromItems id`, the id no longer occurs in the tree. -/
theorem parentExists_removeFromItems (id : String) :
    ∀ items : List LoopItem, parentExists (removeFromItems id items) id = false
  | [] => rfl
  | .step st :: rest => by
      by_cases h : (st.id == id) = true
      · simp [removeFromItems, itemId, h, parentExists_removeFromItems id rest]
      · simp only [Bool.not_eq_true] at h
        simp [removeFromItems, itemId, h, removeInChildren, parentExists, itemHasId,
          parentExists_removeFromItems id rest]
  | .loop lid r ch lbl :: rest => by
      by_cases h : (lid == id) = true
      · simp [removeFromItems, itemId, h, parentExists_removeFromItems id rest]
      · simp only [Bool.not_eq_true] at h
        simp [removeFromItems, itemId, h, removeInChildren, parentExists, itemHasId,
          parentExists_removeFromItems id ch, parentExists_removeFromItems id rest]

/-- C7: removing an id that occurs nowhere in the tree returns the tree
unchanged (a no-op, never an error); removal is idempotent on the tree;
and the full `removeItem` state operation (tree plus "add into"
selection) is idempotent as well. -/
theorem removeItem_noop_idempotent (items : List LoopItem) (id : String) (s : AppState) :
    (parentExists items id = false → removeFromItems id items = items)
    ∧ removeFromItems id (removeFromItems id items) = removeFromItems id items
    ∧ removeItem id (removeItem id s) = removeItem id s := by
  refine ⟨removeFromItems_of_not_exists id items, ?_, ?_⟩
  · exact removeFromItems_of_not_exists id _ (parentExists_removeFromItems id items)
  · have hitems : removeFromItems id (removeFromItems id s.items) = removeFromItems id s.items :=
      removeFromItems_of_not_exists id _ (parentExists_removeFromItems id s.items)
    cases hsel : s.currentParentId with
    | none => simp [removeItem, hsel, hitems]
    | some pid =>
      by_cases hc : (pid == id || !parentExists (removeFromItems id s.items) pid) = true
      · simp [removeItem, hsel, hc, hitems]
      · simp only [Bool.or_eq_true, Bool.not_eq_true', not_or, Bool.not_eq_true] at hc
        simp [removeItem, hsel, hc.1, hc.2, hitems]

/-- C7 instance: removing the absent id `"z"` from a one-step tree is the
identity, and removing `"a"` twice equals removing it once. -/
theorem removeItem_noop_idempotent_inst :
    removeFromItems "z" singleStepItems = singleStepItems
    ∧ removeFromItems "a" (removeFromItems "a" singleStepItems)
        = removeFromItems "a" singleStepItems :=
  ⟨(removeItem_noop_idempotent singleStepItems "z" startState).1 (by decide),
   (removeItem_noop_idempotent singleStepItems "a" startState).2.1⟩

/-- C10: when the countdown of the last flattened step completes,
`handleComplete` performs exactly the explicit reset — the resulting
state *is* `resetTimer` of the current state, so the index goes to `0`,
playing stops, and the countdown-widget reset token is incremented just
as by pressing reset. -/
theorem handleComplete_last_step_resets (s : AppState)
    (hL : 0 < flatLen s) (hi : s.currentStepIndex = flatLen s - 1) :
    (handleComplete s).1 = resetTimer s
    ∧ (handleComplete s).1.resetKey = s.resetKey + 1
    ∧ (handleComplete s).1.currentStepIndex = 0
    ∧ (handleComplete s).1.isTimerPlaying = false := by
  have hnot : ¬ s.currentStepIndex < (flattenedOf s).length - 1 := by
    simp only [flatLen] at hi
    omega
  simp [handleComplete, hnot, resetTimer]

/-- C10 instance: completing the single (hence last) step of a one-step
sequence resets exactly like `resetTimer`, bumping the reset token. -/
theorem handleComplete_last_step_resets_inst :
    (handleComplete runningOne).1 = resetTimer runningOne
    ∧ (handleComplete runningOne).1.resetKey = 1 :=
  ⟨(handleComplete_last_step_resets _ (by decide) (by decide)).1,
   (handleComplete_last_step_resets _ (by decide) (by decide)).2.1⟩

/-- C4: with a non-empty flattened list of length `L` while running, the
step-complete event advances a non-final index `i < L-1` to `i+1`,
remains running, fires the audio cue and requests the countdown repeat;
on the final index `i = L-1` it resets the index to `0` and stops
running. -/
theorem handleComplete_step_advance_spec (s : AppState)
    (hL : 0 < flatLen s) (hrun : s.isTimerPlaying = true) :
    (s.currentStepIndex < flatLen s - 1 →
       (handleComplete s).1.currentStepIndex = s.currentStepIndex + 1
       ∧ (handleComplete s).1.isTimerPlaying = true
       ∧ (handleComplete s).2.1 = true
       ∧ (handleComplete s).2.2 = true)
    ∧ (s.currentStepIndex = flatLen s - 1 →
       (handleComplete s).1.currentStepIndex = 0
       ∧ (handleComplete s).1.isTimerPlaying = false
       ∧ (handleComplete s).2.2 = false) := by
  constructor
  · intro hlt
    simp only [flatLen] at hlt
    simp [handleComplete, hlt, hrun]
  · intro heq
    have hnot : ¬ s.currentStepIndex < (flattenedOf s).length - 1 := by
      simp only [flatLen] at heq
      omega
    simp [handleComplete, hnot, resetTimer]

/-- C4 instance: on a two-step sequence running at index `0`, completion
advances to index `1`, stays playing, beeps and repeats; at index `1`
(the last), completion resets to `0` and stops. -/
theorem handleComplete_step_advance_spec_inst :
    (handleComplete runningTwo).1.currentStepIndex = 1
    ∧ (handleComplete runningTwo).1.isTimerPlaying = true
    ∧ (handleComplete runningTwoAtOne).1.currentStepIndex = 0
    ∧ (handleComplete runningTwoAtOne).1.isTimerPlaying = false := by
  refine ⟨?_, ?_, ?_, ?_⟩
  · exact ((handleComplete_step_advance_spec _ (by decide) (by decide)).1 (by decide)).1
  · exact ((handleComplete_step_advance_spec _ (by decide) (by decide)).1 (by decide)).2.1
  · exact ((handleComplete_step_advance_spec _ (by decide) (by decide)).2 (by decide)).1
  · exact ((handleComplete_step_advance_spec _ (by decide) (by decide)).2 (by decide)).2.1

/-- C2 fails on the code: from the paused state at index `1` (two
flattened steps), re-issuing start does *not* stay at index `1` and
*does* re-trigger the audio cue — `startSequence` unconditionally resets
the index to `0` and calls `playBeep`. -/
theorem startSequence_paused_restart_cex :
    (startSequence pausedAtOne).1.currentStepIndex = 0
    ∧ (startSequence pausedAtOne).1.currentStepIndex ≠ pausedAtOne.currentStepIndex
    ∧ (startSequence pausedAtOne).2 = true := by
  decide

/-- C2 amended: re-issuing start while Paused (non-empty flattened list)
does not resume at the retained index — it behaves exactly like a fresh
start: the index is reset to `0`, the machine enters Running, and the
audio cue is triggered once. -/
theorem startSequence_while_paused_spec (s : AppState)
    (hp : s.isTimerPlaying = false) (hL : 0 < flatLen s) :
    startSequence s = ({ s with currentStepIndex := 0, isTimerPlaying := true }, true) := by
  have hne : ((flattenedOf s).length == 0) = false := by
    simp only [flatLen] at hL
    simp only [beq_eq_false_iff_ne, ne_eq]
    omega
  simp [startSequence, hne]

/-- C2 amended instance: starting from the paused-at-`1` demo state lands
at index `0`, running, with the cue fired. -/
theorem startSequence_while_paused_spec_inst :
    startSequence pausedAtOne
      = ({ pausedAtOne with currentStepIndex := 0, isTimerPlaying := true }, true) :=
  startSequence_while_paused_spec pausedAtOne (by decide) (by decide)

/-- C9: when the computed total duration `minutes*60 + seconds` is zero
(the only way it can be `≤ 0` for sanitized digit inputs, e.g. both
fields `"0"`), `addStep` is a silent no-op: the whole state — tree
included — is unchanged and no error is raised; when the total is
positive and the insertion target is the top level, a step with exactly
that duration is appended. -/
theorem addStep_duration_guard_spec (s : AppState) (newId : String) :
    (parseIntOr0 s.minutes * 60 + parseIntOr0 s.seconds = 0 → addStep newId s = s)
    ∧ (0 < parseIntOr0 s.minutes * 60 + parseIntOr0 s.seconds → s.currentParentId = none →
        (addStep newId s).items
          = s.items
            ++ [.step ⟨parseIntOr0 s.minutes * 60 + parseIntOr0 s.seconds, none, newId⟩]) := by
  constructor
  · intro h0
    simp [addStep, h0]
  · intro hpos hpid
    simp only [addStep, hpid]
    rw [if_pos hpos]
    simp [insertUnit, addStepToParent]

/-- C9 instance: with minutes `"0"` and seconds `"0"` the tree (indeed
the whole state) is untouched; with seconds `"5"` a 5-second step is
appended. -/
theorem addStep_duration_guard_spec_inst :
    addStep "x" { startState with minutes := "0", seconds := "0" }
      = { startState with minutes := "0", seconds := "0" }
    ∧ (addStep "x" { startState with seconds := "5" }).items
      = [.step ⟨5, none, "x"⟩] :=
  ⟨(addStep_duration_guard_spec { startState with minutes := "0", seconds := "0" } "x").1
      (by decide),
   (addStep_duration_guard_spec { startState with seconds := "5" } "x").2
      (by decide) rfl⟩

/-- C6 fails on the code: an object payload with a `steps` field but no
`items` field is *not* migrated — `Array.isArray(parsed.items)` is false
and `parsed.map` is not a function on an object, so the thrown
`TypeError` lands in the `catch` block: the load fails with the
user-visible notice instead of returning migrated items. -/
theorem loadSequence_steps_field_not_migrated :
    loadSequence (.parsed (.objectPayload none (some [⟨20, "a", none⟩]))) = .loadError
    ∧ loadSequence (.parsed (.objectPayload none (some [⟨20, "a", none⟩])))
        ≠ .loaded [.step ⟨20, none, "a"⟩] := by
  refine ⟨rfl, ?_⟩
  intro h
  simp [loadSequence, getItemsArray, tryMapSteps] at h

/-- C6 amended: `loadSequence` migrates exactly the *bare-array* legacy
shape into tagged step units (so `[{time:20,id:"a"}]` becomes
`items = [{type:"step", time:20, id:"a"}]`); an object payload whose
`items` field is an array is returned as-is; an object payload *without*
an array `items` field — including the legacy `steps`-field shape — and
unparseable data take the caught-error path, producing the user-visible
load-failure notice and leaving the in-memory tree unchanged; no input
crashes (`loadSequence` is total). -/
theorem loadSequence_migration_spec :
    (∀ records : List LegacyStep,
      loadSequence (.parsed (.arrayPayload records))
        = .loaded (records.map fun st => .step ⟨st.time, st.label, st.id⟩))
    ∧ (∀ (its : List LoopItem) (steps : Option (List LegacyStep)),
        loadSequence (.parsed (.objectPayload (some its) steps)) = .loaded its)
    ∧ (∀ steps : Option (List LegacyStep),
        loadSequence (.parsed (.objectPayload none steps)) = .loadError)
    ∧ loadSequence .malformedJSON = .loadError
    ∧ loadSequence (.parsed (.arrayPayload [⟨20, "a", none⟩]))
        = .loaded [.step ⟨20, none, "a"⟩] := by
  refine ⟨?_, ?_, ?_, rfl, rfl⟩
  · intro records
    simp [loadSequence, getItemsArray, tryMapSteps]
  · intro its steps
    rfl
  · intro steps
    rfl

/-- If no loop anywhere in the tree has the given id, `updateItems`
rebuilds the tree unchanged (its only modifying clause requires
`i.id === parentId && i.type === "loop"`). -/
theorem updateItems_of_no_loop (pid : String) (u : LoopItem) :
    ∀ items : List LoopItem, containsLoopId items pid = false → updateItems pid u items = items
  | [], _ => rfl
  | .step st :: rest, h => by
      simp only [containsLoopId, itemHasLoopId, Bool.or_eq_false_iff] at h
      simp [updateItems, updateItem, updateItems_of_no_loop pid u rest h.2]
  | .loop lid r ch lbl :: rest, h => by
      simp only [containsLoopId, itemHasLoopId, Bool.or_eq_false_iff] at h
      simp [updateItems, updateItem, h.1.1, updateItems_of_no_loop pid u ch h.1.2,
        updateItems_of_no_loop pid u rest h.2]

/-- C1 fails on the code: inserting with `parentId = "s"` into the tree
`[Step "s"]` — a parentId that resolves to a *Step*, hence not to any
Loop — does not append the unit at the top level: `parentExists` accepts
the step's id, `addStepToParent` finds no loop to extend, and the unit is
silently dropped (the tree is returned unchanged), unlike inserting with
`parentId = none`. -/
theorem insertUnit_step_parent_drops_cex :
    insertUnit (some "s") (.step ⟨7, none, "x"⟩) singleStepItems = singleStepItems
    ∧ insertUnit (some "s") (.step ⟨7, none, "x"⟩) singleStepItems
        ≠ insertUnit none (.step ⟨7, none, "x"⟩) singleStepItems := by
  refine ⟨rfl, ?_⟩
  intro h
  have hlen := congrArg List.length h
  simp [insertUnit, addStepToParent, updateItems, updateItem, singleStepItems,
    parentExists, itemHasId] at hlen

/-- C1 amended: inserting with a `parentId` that matches *no unit at all*
appends the unit to the top level, exactly as with `parentId = none`, and
never drops it; but when `parentId` matches some unit while no Loop in
the tree has that id (i.e. it resolves to a Step), the insert leaves the
tree unchanged — the unit is silently dropped rather than appended. -/
theorem insertUnit_missing_parent_spec (items : List LoopItem) (p : String) (u : LoopItem) :
    (parentExists items p = false →
       insertUnit (some p) u items = items ++ [u]
       ∧ insertUnit none u items = items ++ [u])
    ∧ (parentExists items p = true → containsLoopId items p = false →
       insertUnit (some p) u items = items) := by
  constructor
  · intro h
    exact ⟨by simp [insertUnit, h], rfl⟩
  · intro hex hno
    simp [insertUnit, hex, addStepToParent, updateItems_of_no_loop p u items hno]

/-- C1 amended instance: a wholly absent parent id `"zz"` appends at top
level; the step-id parent `"s"` drops the unit. -/
theorem insertUnit_missing_parent_spec_inst :
    insertUnit (some "zz") (.step ⟨7, none, "x"⟩) singleStepItems
      = singleStepItems ++ [.step ⟨7, none, "x"⟩]
    ∧ insertUnit (some "s") (.step ⟨7, none, "x"⟩) singleStepItems = singleStepItems :=
  ⟨((insertUnit_missing_parent_spec singleStepItems "zz" _).1 (by decide)).1,
   (insertUnit_missing_parent_spec singleStepItems "s" _).2 (by decide) (by decide)⟩

/-- An id is found by `parentExists` exactly when it occurs among the
tree's ids. -/
theorem parentExists_iff_mem (x : String) :
    ∀ items : List LoopItem, parentExists items x = true ↔ x ∈ allIds items
  | [] => by simp [parentExists, allIds]
  | .step st :: rest => by
      simp [parentExists, itemHasId, allIds, itemIds, parentExists_iff_mem x rest]
      exact or_congr eq_comm Iff.rfl
  | .loop lid r ch lbl :: rest => by
      simp [parentExists, itemHasId, allIds, itemIds, parentExists_iff_mem x ch,
        parentExists_iff_mem x rest, or_assoc]
      exact or_congr eq_comm Iff.rfl

/-- Removal never introduces ids: ids of the removed tree occur in the
original tree. -/
theorem mem_allIds_removeFromItems (rid x : String) :
    ∀ items : List LoopItem, x ∈ allIds (removeFromItems rid items) → x ∈ allIds items
  | [], h => by simpa [removeFromItems] using h
  | .step st :: rest, h => by
      by_cases hid : (st.id == rid) = true
      · simp only [removeFromItems, itemId, hid, if_pos] at h
        simp [allIds, itemIds, mem_allIds_removeFromItems rid x rest h]
      · simp only [removeFromItems, itemId, hid, if_neg, Bool.false_eq_true,
          not_false_iff, removeInChildren, allIds, itemIds, List.cons_append,
          List.nil_append, List.mem_cons] at h
        rcases h with h | h
        · simp [allIds, itemIds, h]
        · simp [allIds, itemIds, mem_allIds_removeFromItems rid x rest h]
  | .loop lid r ch lbl :: rest, h => by
      by_cases hid : (lid == rid) = true
      · simp only [removeFromItems, itemId, hid, if_pos] at h
        simp [allIds, itemIds, mem_allIds_removeFromItems rid x rest h]
      · simp only [removeFromItems, itemId, hid, if_neg, Bool.false_eq_true,
          not_false_iff, removeInChildren, allIds, itemIds, List.cons_append,
          List.mem_cons, List.mem_append] at h
        rcases h with h | h | h
        · simp [allIds, itemIds, h]
        · simp [allIds, itemIds, mem_allIds_removeFromItems rid x ch h]
        · simp [allIds, itemIds, mem_allIds_removeFromItems rid x rest h]

/-- An id absent from a tree cannot be found after a removal either. -/
theorem parentExists_rem_of_not_mem (rid x : String) (items : List LoopItem)
    (h : x ∉ allIds items) : parentExists (removeFromItems rid items) x = false := by
  rw [Bool.eq_false_iff]
  intro hb
  exact h (mem_allIds_removeFromItems rid x items ((parentExists_iff_mem x _).mp hb))

/-- If `sel` sits inside some loop with id `rid`, then `sel` occurs among
the tree's ids. -/
theorem hasLoopContaining_mem_sel (rid sel : String) :
    ∀ items : List LoopItem, hasLoopContaining items rid sel = true → sel ∈ allIds items
  | [], h => by simp [hasLoopContaining] at h
  | .step st :: rest, h => by
      simp only [hasLoopContaining, itemLoopContaining, Bool.false_or] at h
      simp [allIds, itemIds, hasLoopContaining_mem_sel rid sel rest h]
  | .loop lid r ch lbl :: rest, h => by
      simp only [hasLoopContaining, itemLoopContaining, Bool.or_eq_true,
        Bool.and_eq_true, beq_iff_eq] at h
      simp only [allIds, itemIds, List.cons_append, List.mem_cons, List.mem_append]
      cases h with
      | inl hab =>
        cases hab with
        | inl hand => exact Or.inr (Or.inl ((parentExists_iff_mem sel ch).mp hand.2))
        | inr hch => exact Or.inr (Or.inl (hasLoopContaining_mem_sel rid sel ch hch))
      | inr hrest => exact Or.inr (Or.inr (hasLoopContaining_mem_sel rid sel rest hrest))

/-- With globally unique ids, removing the unit with id `rid` erases
every id of its subtree: a `sel` sitting inside a loop with id `rid` is
no longer found after `removeFromItems rid`. -/
theorem removed_descendant_gone (rid sel : String) :
    ∀ items : List LoopItem, (allIds items).Nodup →
      hasLoopContaining items rid sel = true →
      parentExists (removeFromItems rid items) sel = false
  | [], _, h => by simp [hasLoopContaining] at h
  | .step st :: rest, hnd, h => by
      simp only [hasLoopContaining, itemLoopContaining, Bool.false_or] at h
      have hnd' : (st.id :: allIds rest).Nodup := by
        simpa [allIds, itemIds] using hnd
      rw [List.nodup_cons] at hnd'
      have hselmem : sel ∈ allIds rest := hasLoopContaining_mem_sel rid sel rest h
      by_cases hid : (st.id == rid) = true
      · simp only [removeFromItems, itemId, hid, if_pos]
        exact removed_descendant_gone rid sel rest hnd'.2 h
      · have hidf : (st.id == rid) = false := Bool.eq_false_iff.mpr hid
        have h1 : (st.id == sel) = false := by
          rw [beq_eq_false_iff_ne]
          intro he
          exact hnd'.1 (he ▸ hselmem)
        have h2 : parentExists (removeFromItems rid rest) sel = false :=
          removed_descendant_gone rid sel rest hnd'.2 h
        simp [removeFromItems, itemId, hidf, removeInChildren, parentExists, itemHasId, h1, h2]
  | .loop lid r ch lbl :: rest, hnd, h => by
      simp only [hasLoopContaining, itemLoopContaining] at h
      have hnd' : ((lid :: allIds ch) ++ allIds rest).Nodup := by
        simpa [allIds, itemIds] using hnd
      rw [List.nodup_append] at hnd'
      obtain ⟨hndc, hndr, hdisj⟩ := hnd'
      rw [List.nodup_cons] at hndc
      rw [Bool.or_eq_true, Bool.or_eq_true] at h
      by_cases hid : (lid == rid) = true
      · have hrem : removeFromItems rid (.loop lid r ch lbl :: rest)
            = removeFromItems rid rest := by
          simp [removeFromItems, itemId, hid]
        rw [hrem]
        rcases h with hab | hrest
        · have hm : sel ∈ allIds ch := by
            rcases hab with hand | hch
            · rw [Bool.and_eq_true] at hand
              exact (parentExists_iff_mem sel ch).mp hand.2
            · exact hasLoopContaining_mem_sel rid sel ch hch
          apply parentExists_rem_of_not_mem
          intro hr
          exact hdisj (List.mem_cons_of_mem _ hm) hr
        · exact removed_descendant_gone rid sel rest hndr hrest
      · have hidf : (lid == rid) = false := Bool.eq_false_iff.mpr hid
        rcases h with hab | hrest
        · rcases hab with hand | hch
          · rw [Bool.and_eq_true] at hand
            exact absurd hand.1 hid
          · have hm : sel ∈ allIds ch := hasLoopContaining_mem_sel rid sel ch hch
            have h1 : (lid == sel) = false := by
              rw [beq_eq_false_iff_ne]
              intro he
              exact hndc.1 (he ▸ hm)
            have h2 : parentExists (removeFromItems rid ch) sel = false :=
              removed_descendant_gone rid sel ch hndc.2 hch
            have h3 : parentExists (removeFromItems rid rest) sel = false := by
              apply parentExists_rem_of_not_mem
              intro hr
              exact hdisj (List.mem_cons_of_mem _ hm) hr
            simp [removeFromItems, itemId, hidf, removeInChildren, parentExists, itemHasId,
              h1, h2, h3]
        · have hm : sel ∈ allIds rest := hasLoopContaining_mem_sel rid sel rest hrest
          have h1 : (lid == sel) = false := by
            rw [beq_eq_false_iff_ne]
            intro he
            exact hdisj (List.mem_cons_self lid (allIds ch)) (by rwa [he])
          have h2 : parentExists (removeFromItems rid ch) sel = false := by
            apply parentExists_rem_of_not_mem
            intro hc
            exact hdisj (List.mem_cons_of_mem _ hc) hm
          have h3 : parentExists (removeFromItems rid rest) sel = false :=
            removed_descendant_gone rid sel rest hndr hrest
          simp [removeFromItems, itemId, hidf, removeInChildren, parentExists, itemHasId,
            h1, h2, h3]

/-- A unit that is neither the removed unit nor a descendant of it is
still found after the removal. -/
theorem other_unit_survives (rid sel : String) (hns : sel ≠ rid) :
    ∀ items : List LoopItem, parentExists items sel = true →
      hasLoopContaining items rid sel = false →
      parentExists (removeFromItems rid items) sel = true
  | [], hpe, _ => by simp [parentExists] at hpe
  | .step st :: rest, hpe, hlc => by
      simp only [parentExists, itemHasId, Bool.or_eq_true] at hpe
      simp only [hasLoopContaining, itemLoopContaining, Bool.false_or] at hlc
      by_cases hid : (st.id == rid) = true
      · have hre : st.id = rid := by simpa using hid
        have hpe' : parentExists rest sel = true := by
          rcases hpe with hes | hr
          · exact absurd ((by simpa using hes : st.id = sel).symm.trans hre) hns
          · exact hr
        simp only [removeFromItems, itemId, hid, if_pos]
        exact other_unit_survives rid sel hns rest hpe' hlc
      · have hidf : (st.id == rid) = false := Bool.eq_false_iff.mpr hid
        rcases hpe with hes | hr
        · simp [removeFromItems, itemId, hidf, removeInChildren, parentExists, itemHasId, hes]
        · have hih := other_unit_survives rid sel hns rest hr hlc
          simp [removeFromItems, itemId, hidf, removeInChildren, parentExists, itemHasId, hih]
  | .loop lid r ch lbl :: rest, hpe, hlc => by
      simp only [parentExists, itemHasId, Bool.or_eq_true] at hpe
      simp only [hasLoopContaining, itemLoopContaining, Bool.or_eq_false_iff] at hlc
      by_cases hid : (lid == rid) = true
      · have hlr : lid = rid := by simpa using hid
        have hpe' : parentExists rest sel = true := by
          rcases hpe with hl2 | hr
          · rcases hl2 with hls | hpc
            · exact absurd ((by simpa using hls : lid = sel).symm.trans hlr) hns
            · exfalso
              have hx := hlc.1.1
              rw [hid, Bool.true_and, hpc] at hx
              exact Bool.noConfusion hx
          · exact hr
        simp only [removeFromItems, itemId, hid, if_pos]
        exact other_unit_survives rid sel hns rest hpe' hlc.2
      · have hidf : (lid == rid) = false := Bool.eq_false_iff.mpr hid
        rcases hpe with hl2 | hr
        · rcases hl2 with hls | hpc
          · simp [removeFromItems, itemId, hidf, removeInChildren, parentExists, itemHasId, hls]
          · have hih := other_unit_survives rid sel hns ch hpc hlc.1.2
            simp [removeFromItems, itemId, hidf, removeInChildren, parentExists, itemHasId, hih]
        · have hih := other_unit_survives rid sel hns rest hr hlc.2
          simp [removeFromItems, itemId, hidf, removeInChildren, parentExists, itemHasId, hih]

/-- C8: with `sel` as the currently selected "add into" target, removing
the unit with id `sel` itself resets the selection to top level (`none`);
removing a unit of which `sel` is a descendant (some loop with the
removed id contains `sel`, ids being globally unique) also resets it to
`none`; and removing any other unit — one that is not `sel` and does not
contain `sel` — leaves the selection unchanged, provided `sel` actually
occurs in the tree. -/
theorem removeItem_selection_reset_spec (s : AppState) (sel rid : String)
    (hsel : s.currentParentId = some sel) :
    (rid = sel → (removeItem rid s).currentParentId = none)
    ∧ ((allIds s.items).Nodup → hasLoopContaining s.items rid sel = true →
        (removeItem rid s).currentParentId = none)
    ∧ (parentExists s.items sel = true → sel ≠ rid →
        hasLoopContaining s.items rid sel = false →
        (removeItem rid s).currentParentId = some sel) := by
  refine ⟨?_, ?_, ?_⟩
  · intro h
    subst h
    simp [removeItem, hsel]
  · intro hnd hlc
    have hgone := removed_descendant_gone rid sel s.items hnd hlc
    simp [removeItem, hsel, hgone]
  · intro hpe hne hlc
    have hkeep := other_unit_survives rid sel hne s.items hpe hlc
    simp [removeItem, hsel, hkeep, beq_eq_false_iff_ne.mpr hne]

/-- C8 instance: in the nested demo tree with inner loop `"M"` selected,
removing the containing loop `"L"` resets the selection, and removing
`"M"` itself resets it too; in the sibling demo tree with loop `"L"`
selected, removing the unrelated step `"a"` keeps the selection. -/
theorem removeItem_selection_reset_spec_inst :
    (removeItem "L" selStateNested).currentParentId = none
    ∧ (removeItem "M" selStateNested).currentParentId = none
    ∧ (removeItem "a" selStateSibling).currentParentId = some "L" :=
  ⟨(removeItem_selection_reset_spec selStateNested "M" "L" rfl).2.1 (by decide) (by decide),
   (removeItem_selection_reset_spec selStateNested "M" "M" rfl).1 rfl,
   (removeItem_selection_reset_spec selStateSibling "L" "a" rfl).2.2 (by decide) (by decide)
     (by decide)⟩

/-- Inserting into a loop can only grow the flattened playback list. -/
theorem flattenList_updateItems_mono (pid : String) (u : LoopItem) :
    ∀ items : List LoopItem,
      (flattenList items).length ≤ (flattenList (updateItems pid u items)).length
  | [] => Nat.le_refl _
  | .step st :: rest => by
      have hih := flattenList_updateItems_mono pid u rest
      simp only [updateItems, updateItem, flattenList, flattenItem, List.length_append]
      omega
  | .loop lid r ch lbl :: rest => by
      have hihr := flattenList_updateItems_mono pid u rest
      by_cases hid : (lid == pid) = true
      · simp only [updateItems, updateItem, hid, if_pos, flattenList, flattenItem,
          List.length_append, repeatList_length]
        rw [flattenList_append]
        simp only [List.length_append]
        have hmul : r * (flattenList ch).length
            ≤ r * ((flattenList ch).length + (flattenList [u]).length) :=
          Nat.mul_le_mul_left r (Nat.le_add_right _ _)
        omega
      · have hidf : (lid == pid) = false := Bool.eq_false_iff.mpr hid
        have hihc := flattenList_updateItems_mono pid u ch
        simp only [updateItems, updateItem, hidf, Bool.false_eq_true, if_neg,
          not_false_iff, flattenList, flattenItem, List.length_append, repeatList_length]
        have hmul : r * (flattenList ch).length
            ≤ r * (flattenList (updateItems pid u ch)).length :=
          Nat.mul_le_mul_left r hihc
        omega

/-- Any insertion — top-level append or into a loop — can only grow the
flattened playback list. -/
theorem flattenList_insertUnit_mono (pid : Option String) (u : LoopItem)
    (items : List LoopItem) :
    (flattenList items).length ≤ (flattenList (insertUnit pid u items)).length := by
  cases pid with
  | none =>
      simp only [insertUnit, addStepToParent, flattenList_append, List.length_append]
      exact Nat.le_add_right _ _
  | some p =>
      by_cases hp : parentExists items p = true
      · simp only [insertUnit, hp, if_pos, addStepToParent]
        exact flattenList_updateItems_mono p u items
      · have hpf : parentExists items p = false := Bool.eq_false_iff.mpr hp
        simp only [insertUnit, hpf, Bool.false_eq_true, if_neg, not_false_iff,
          flattenList_append, List.length_append]
        exact Nat.le_add_right _ _

/-- `addStep` never moves the playback index. -/
theorem addStep_currentStepIndex (newId : String) (s : AppState) :
    (addStep newId s).currentStepIndex = s.currentStepIndex := by
  simp only [addStep]
  split <;> rfl

/-- `addStep` never shrinks the flattened playback list. -/
theorem addStep_flatLen_mono (newId : String) (s : AppState) :
    flatLen s ≤ flatLen (addStep newId s) := by
  simp only [addStep]
  split
  · simp only [flatLen, flattenedOf, flattenSequence, processItems, repeatList,
      List.append_nil]
    exact flattenList_insertUnit_mono _ _ _
  · exact Nat.le_refl _

/-- `addLoop` never moves the playback index. -/
theorem addLoop_currentStepIndex (newId : String) (s : AppState) :
    (addLoop newId s).currentStepIndex = s.currentStepIndex := rfl

/-- `addLoop` never shrinks the flattened playback list. -/
theorem addLoop_flatLen_mono (newId : String) (s : AppState) :
    flatLen s ≤ flatLen (addLoop newId s) := by
  unfold addLoop flatLen flattenedOf flattenSequence processItems
  simp only [repeatList, List.append_nil, List.length_append]
  have := flattenList_insertUnit_mono s.currentParentId
    (.loop newId (parseIntOr1 s.loopRepetitions) [] none) s.items
  omega

/-- Every event except `removeEv` preserves the strengthened index
invariant (in range, or parked at `0`). -/
theorem stepEv_preserves_IndexInvAux (s : AppState) (e : Ev)
    (hinv : IndexInvAux s) (hnr : isRemoveEv e = false) : IndexInvAux (stepEv s e) := by
  cases e with
  | setMinutesEv t => simpa [stepEv, IndexInvAux, flatLen, flattenedOf] using hinv
  | setSecondsEv t => simpa [stepEv, IndexInvAux, flatLen, flattenedOf] using hinv
  | setLoopRepsEv t => simpa [stepEv, IndexInvAux, flatLen, flattenedOf] using hinv
  | selectParentEv pid => simpa [stepEv, IndexInvAux, flatLen, flattenedOf] using hinv
  | addStepEv newId =>
      have hidx := addStep_currentStepIndex newId s
      have hlen := addStep_flatLen_mono newId s
      have hred : stepEv s (.addStepEv newId) = addStep newId s := rfl
      rcases hinv with hlt | h0
      · left
        rw [hred, hidx]
        exact Nat.lt_of_lt_of_le hlt hlen
      · right
        rw [hred, hidx, h0]
  | addLoopEv newId =>
      have hidx := addLoop_currentStepIndex newId s
      have hlen := addLoop_flatLen_mono newId s
      have hred : stepEv s (.addLoopEv newId) = addLoop newId s := rfl
      rcases hinv with hlt | h0
      · left
        rw [hred, hidx]
        exact Nat.lt_of_lt_of_le hlt hlen
      · right
        rw [hred, hidx, h0]
  | removeEv id => simp [isRemoveEv] at hnr
  | startEv =>
      by_cases hg : ((flattenedOf s).length != 0 && !s.isTimerPlaying) = true
      · have hne : ((flattenedOf s).length == 0) = false := by
          rw [Bool.and_eq_true] at hg
          exact beq_eq_false_iff_ne.mpr (bne_iff_ne.mp hg.1)
        simp [stepEv, hg, startSequence, hne, IndexInvAux]
      · simp only [stepEv, if_neg hg]
        exact hinv
  | pauseEv =>
      by_cases hg : ((flattenedOf s).length != 0 && s.isTimerPlaying) = true
      · simp only [stepEv, if_pos hg]
        simpa [IndexInvAux, flatLen, flattenedOf] using hinv
      · simp only [stepEv, if_neg hg]
        exact hinv
  | resetEv =>
      by_cases hg : ((flattenedOf s).length != 0) = true
      · simp only [stepEv, if_pos hg, resetTimer]
        exact Or.inr rfl
      · simp only [stepEv, if_neg hg]
        exact hinv
  | completeEv =>
      by_cases hg : s.isTimerPlaying = true
      · simp only [stepEv, if_pos hg]
        unfold handleComplete
        by_cases hc : s.currentStepIndex < (flattenedOf s).length - 1
        · rw [if_pos hc]
          refine Or.inl ?_
          simp only [IndexInvAux, flatLen, flattenedOf]
          simp only [flatLen, flattenedOf] at hc ⊢
          omega
        · rw [if_neg hc]
          exact Or.inr rfl
      · simp only [stepEv, if_neg hg]
        exact hinv

/-- Traces without a remove event preserve the strengthened invariant. -/
theorem runEvents_preserves_IndexInvAux :
    ∀ (evs : List Ev) (s : AppState), IndexInvAux s →
      (∀ e ∈ evs, isRemoveEv e = false) → IndexInvAux (runEvents evs s)
  | [], _, hinv, _ => hinv
  | e :: evs, s, hinv, hall => by
      simp only [runEvents]
      exact runEvents_preserves_IndexInvAux evs _
        (stepEv_preserves_IndexInvAux s e hinv (hall e (List.mem_cons_self e evs)))
        (fun x hx => hall x (List.mem_cons_of_mem _ hx))

/-- C3 fails on the code: add two 5-second steps, start, let the first
step complete (index becomes `1`), then remove the second step.  The
flattened list now has length `1` while the current index is still `1` —
outside `[0, length-1]`: no operation clamps the index when the tree
shrinks. -/
theorem removeItem_breaks_index_range_cex :
    0 < flatLen (runEvents [.setSecondsEv "5", .addStepEv "a", .setSecondsEv "5",
        .addStepEv "b", .startEv, .completeEv, .removeEv "b"] startState)
    ∧ (runEvents [.setSecondsEv "5", .addStepEv "a", .setSecondsEv "5",
        .addStepEv "b", .startEv, .completeEv, .removeEv "b"] startState).currentStepIndex = 1
    ∧ ¬((runEvents [.setSecondsEv "5", .addStepEv "a", .setSecondsEv "5",
        .addStepEv "b", .startEv, .completeEv, .removeEv "b"] startState).currentStepIndex
          ≤ flatLen (runEvents [.setSecondsEv "5", .addStepEv "a", .setSecondsEv "5",
            .addStepEv "b", .startEv, .completeEv, .removeEv "b"] startState) - 1) := by
  decide

/-- C3 amended: the index invariant holds in every state reachable from
the initial state by any sequence of editor and playback events *not
containing `removeItem`* — every other operation preserves it, since
insertions only grow the flattened list and every index-setting playback
event lands in range; `removeItem` can shrink the flattened list below
the retained index and thereby break the invariant until the next
start/reset/step-complete.  When the flattened list is empty the index is
display-irrelevant: the countdown shows the same fallback duration as at
index `0`. -/
theorem index_in_range_no_remove :
    (∀ evs : List Ev, (∀ e ∈ evs, isRemoveEv e = false) →
      IndexInv (runEvents evs startState))
    ∧ (∀ s : AppState, flatLen s = 0 →
        activeDuration s = activeDuration { s with currentStepIndex := 0 }) := by
  constructor
  · intro evs hnr
    have haux := runEvents_preserves_IndexInvAux evs startState (Or.inr rfl) hnr
    unfold IndexInv
    intro hpos
    rcases haux with h | h
    · exact h
    · rw [h]
      exact hpos
  · intro s h0
    have hnil : flattenSequence s.items = [] := by
      simpa [flatLen, flattenedOf, List.length_eq_zero] using h0
    simp [activeDuration, flattenedOf, hnil]

/-- C3 amended instance: after seconds `"5"`, add-step, start — a
remove-free trace — the index `0` is within the flattened length `1`. -/
theorem index_in_range_no_remove_inst :
    (runEvents [.setSecondsEv "5", .addStepEv "a", .startEv] startState).currentStepIndex
      < flatLen (runEvents [.setSecondsEv "5", .addStepEv "a", .startEv] startState) :=
  index_in_range_no_remove.1 [.setSecondsEv "5", .addStepEv "a", .startEv]
    (by decide) (by decide)

